import Mathlib

/-!
Verification development for the Eterea bookmark manager.

The repository slice under verification is the Svelte frontend
(`src/frontend/src`): the API layer (`lib/api`), the reactive stores
(`lib/stores/bookmarks.svelte`), the card component
(`lib/components/BookmarkCard.svelte`) and the settings page.  The Rust
backend (storage, query engine, ingestion pipeline, command surface) is
referenced by the frontend through Tauri `invoke` calls but its source is
not part of the slice; where a claim depends on backend behaviour, the
backend operation is modelled from the specification (each such
definition carries a doc comment starting with `Modelled from the spec:`).

Data types are translated from `lib/types.ts`.  Timestamps (`tweeted_at`)
and ids are kept as strings, as in the source; the deterministic ordering
required by the spec is lexicographic on the underlying character
codepoints (UTF-8 ISO-8601 timestamps compare chronologically this way).
-/

/-! ## Data model (from `lib/types.ts`) -/

inductive MediaType where
  | Image
  | Video
  | Gif
  | Unknown
deriving DecidableEq, Repr

structure Media where
  url : String
  media_type : MediaType
deriving DecidableEq, Repr

structure Bookmark where
  id : String
  tweet_url : String
  content : String
  note_text : Option String
  tweeted_at : String
  imported_at : String
  author_handle : String
  author_name : String
  author_profile_url : Option String
  author_profile_image : Option String
  tags : List String
  comments : Option String
  media : List Media
  is_favorite : Bool
deriving DecidableEq, Repr

structure BookmarkStats where
  total_bookmarks : Nat
  unique_authors : Nat
  unique_tags : Nat
  favorite_bookmarks : Nat
  earliest_date : Option String
  latest_date : Option String
  top_tags : List (String × Nat)
deriving DecidableEq, Repr

structure PaginatedResponse where
  items : List Bookmark
  total : Nat
  offset : Nat
  limit : Nat
  has_more : Bool
deriving DecidableEq, Repr

structure LinkPreview where
  url : String
  final_url : String
  title : Option String
  description : Option String
  image_url : Option String
  site_name : Option String
deriving DecidableEq, Repr

/-! ## Deterministic ordering on strings

A computable lexicographic order on character lists, used to model the
spec ordering "by `tweeted_at` descending, ties broken by `id`
ascending".  It is written so that the kernel can evaluate it on concrete
inputs. -/

def lexLt : List Char → List Char → Bool
  | [], [] => false
  | [], _ :: _ => true
  | _ :: _, [] => false
  | a :: as, b :: bs =>
    if a.toNat < b.toNat then true
    else if b.toNat < a.toNat then false
    else lexLt as bs

theorem char_toNat_inj {a b : Char} (h : a.toNat = b.toNat) : a = b :=
  Char.ext (UInt32.ext h)

theorem lexLt_trichotomy : ∀ x y : List Char,
    lexLt x y = true ∨ lexLt y x = true ∨ x = y := by
  intro x
  induction x with
  | nil =>
    intro y
    cases y with
    | nil => exact Or.inr (Or.inr rfl)
    | cons b bs => exact Or.inl rfl
  | cons a as ih =>
    intro y
    cases y with
    | cons b bs =>
      rcases Nat.lt_trichotomy a.toNat b.toNat with h | h | h
      · left
        simp [lexLt, h]
      · rcases ih bs with h2 | h2 | h2
        · left
          simp [lexLt, h, Nat.lt_irrefl, Nat.lt_asymm, h2]
        · right; left
          simp [lexLt, h, Nat.lt_irrefl, Nat.lt_asymm, h2]
        · right; right
          rw [char_toNat_inj h, h2]
      · right; left
        simp [lexLt, h]
    | nil => exact Or.inr (Or.inl rfl)

theorem lexLt_trans : ∀ x y z : List Char,
    lexLt x y = true → lexLt y z = true → lexLt x z = true := by
  intro x
  induction x with
  | nil =>
    intro y z hxy hyz
    cases y with
    | nil => exact hyz
    | cons b bs =>
      cases z with
      | nil => simp [lexLt] at hyz
      | cons c cs => rfl
  | cons a as ih =>
    intro y z hxy hyz
    cases y with
    | nil => simp [lexLt] at hxy
    | cons b bs =>
      cases z with
      | nil => simp [lexLt] at hyz
      | cons c cs =>
        simp only [lexLt] at hxy hyz ⊢
        rcases Nat.lt_trichotomy a.toNat b.toNat with h1 | h1 | h1
        · rcases Nat.lt_trichotomy b.toNat c.toNat with h2 | h2 | h2
          · have h3 : a.toNat < c.toNat := Nat.lt_trans h1 h2
            simp [h3]
          · have h3 : a.toNat < c.toNat := h2 ▸ h1
            simp [h3]
          · simp [Nat.lt_asymm h2, h2] at hyz
        · rcases Nat.lt_trichotomy b.toNat c.toNat with h2 | h2 | h2
          · have h3 : a.toNat < c.toNat := h1 ▸ h2
            simp [h3]
          · have h3 : ¬ a.toNat < c.toNat := by omega
            have h4 : ¬ c.toNat < a.toNat := by omega
            have h5 : ¬ a.toNat < b.toNat := by omega
            have h6 : ¬ b.toNat < a.toNat := by omega
            have h7 : ¬ b.toNat < c.toNat := by omega
            have h8 : ¬ c.toNat < b.toNat := by omega
            simp [h5, h6] at hxy
            simp [h7, h8] at hyz
            simp [h3, h4]
            exact ih bs cs hxy hyz
          · simp [Nat.lt_asymm h2, h2] at hyz
        · simp [Nat.lt_asymm h1, h1] at hxy

/-! ## The spec ordering: `tweeted_at` descending, ties broken by `id` ascending -/

def bookOrder (a b : Bookmark) : Prop :=
  lexLt b.tweeted_at.data a.tweeted_at.data = true ∨
    (a.tweeted_at = b.tweeted_at ∧
      (lexLt a.id.data b.id.data = true ∨ a.id = b.id))

instance : DecidableRel bookOrder := fun a b =>
  inferInstanceAs (Decidable (lexLt b.tweeted_at.data a.tweeted_at.data = true ∨
    (a.tweeted_at = b.tweeted_at ∧
      (lexLt a.id.data b.id.data = true ∨ a.id = b.id))))

theorem string_data_inj {a b : String} (h : a.data = b.data) : a = b := by
  cases a
  cases b
  exact congrArg String.mk h

instance : IsTotal Bookmark bookOrder := by
  constructor
  intro a b
  rcases lexLt_trichotomy b.tweeted_at.data a.tweeted_at.data with h | h | h
  · exact Or.inl (Or.inl h)
  · exact Or.inr (Or.inl h)
  · have ht : a.tweeted_at = b.tweeted_at := (string_data_inj h).symm
    rcases lexLt_trichotomy a.id.data b.id.data with h2 | h2 | h2
    · exact Or.inl (Or.inr ⟨ht, Or.inl h2⟩)
    · exact Or.inr (Or.inr ⟨ht.symm, Or.inl h2⟩)
    · exact Or.inl (Or.inr ⟨ht, Or.inr (string_data_inj h2)⟩)

instance : IsTrans Bookmark bookOrder := by
  constructor
  intro a b c hab hbc
  rcases hab with h1 | ⟨e1, i1⟩
  · rcases hbc with h2 | ⟨e2, _⟩
    · exact Or.inl (lexLt_trans _ _ _ h2 h1)
    · exact Or.inl (e2 ▸ h1)
  · rcases hbc with h2 | ⟨e2, i2⟩
    · exact Or.inl (e1 ▸ h2)
    · refine Or.inr ⟨e1.trans e2, ?_⟩
      rcases i1 with h3 | h3
      · rcases i2 with h4 | h4
        · exact Or.inl (lexLt_trans _ _ _ h3 h4)
        · exact Or.inl (h4 ▸ h3)
      · rcases i2 with h4 | h4
        · exact Or.inl (h3 ▸ h4)
        · exact Or.inr (h3.trans h4)

/-! ## Storage and query engine, modelled from the spec -/

/-- Modelled from the spec: the Storage Engine's deterministic ordering for
`list` — "by `tweeted_at` descending, ties broken by `id` ascending".  The
stored rows are modelled as a list; ordering is realised by sorting under
`bookOrder`. -/
def sortBookmarks (db : List Bookmark) : List Bookmark :=
  db.insertionSort bookOrder

theorem sortBookmarks_perm (db : List Bookmark) : List.Perm (sortBookmarks db) db :=
  List.perm_insertionSort bookOrder db

theorem sortBookmarks_sorted (db : List Bookmark) :
    List.Sorted bookOrder (sortBookmarks db) :=
  List.sorted_insertionSort bookOrder db

theorem sortBookmarks_length (db : List Bookmark) :
    (sortBookmarks db).length = db.length :=
  (sortBookmarks_perm db).length_eq

/-- Modelled from the spec: the Storage Engine operation
`list(offset, limit) -> ordered page`. -/
def listPage (db : List Bookmark) (offset limit : Nat) : List Bookmark :=
  ((sortBookmarks db).drop offset).take limit

/-- Modelled from the spec: the Command Surface "validates inputs (e.g.,
`limit` bounded to a sane maximum to prevent unbounded result sets) before
delegating".  The sane maximum is the largest page size the settings
screen offers (200). -/
def MAX_LIMIT : Nat := 200

/-- Modelled from the spec: the `limit` validation applied by every
externally callable command before the request reaches storage. -/
def validateLimit (limit : Nat) : Nat := min limit MAX_LIMIT

/-- Modelled from the spec: the command
`get_bookmarks(offset, limit) -> {items, total, offset, limit, has_more}`;
it validates `limit` and delegates to the storage `list`. -/
def get_bookmarks (db : List Bookmark) (offset limit : Nat) : PaginatedResponse :=
  let l := validateLimit limit
  let items := listPage db offset l
  { items := items
    total := db.length
    offset := offset
    limit := l
    has_more := decide (offset + items.length < db.length) }

/-- Free-text matching, modelled as substring containment of the query in
the bookmark content (a stand-in for the FTS5 match primitive; the claims
proved here do not depend on tokenisation details). -/
def textMatches (q : String) (b : Bookmark) : Bool :=
  (b.content.data.tails.any (fun t => q.data.isPrefixOf t))

/-- Modelled from the spec: the Query Engine filter specification
`{text, tag, author, date_from/date_to, favorites_only, has_media}`. -/
structure Filters where
  query : Option String
  tag : Option String
  author : Option String
  dateFrom : Option String
  dateTo : Option String
  favoritesOnly : Bool
  hasMedia : Option Bool
deriving DecidableEq, Repr

/-- Modelled from the spec: "the other filters applied as a conjunction
(AND semantics across all provided filters — never OR)".  Date bounds are
an inclusive range on `tweeted_at`; tag is an exact tag match; author is a
handle match; `has_media` tests presence of media. -/
def matchesFilters (f : Filters) (b : Bookmark) : Bool :=
  (match f.query with
   | none => true
   | some q => textMatches q b) &&
  (match f.tag with
   | none => true
   | some t => b.tags.contains t) &&
  (match f.author with
   | none => true
   | some a => a == b.author_handle) &&
  (match f.dateFrom with
   | none => true
   | some d => lexLt b.tweeted_at.data d.data == false) &&
  (match f.dateTo with
   | none => true
   | some d => lexLt d.data b.tweeted_at.data == false) &&
  (!f.favoritesOnly || b.is_favorite) &&
  (match f.hasMedia with
   | none => true
   | some h => (!b.media.isEmpty) == h)

/-- Modelled from the spec: the command
`search_with_filters(...) -> items[]`, composing all provided filters into
one conjunction over the `list`-ordered rows, capped at `limit` results
returned in a single call. -/
def search_with_filters (db : List Bookmark) (f : Filters) (limit : Nat) :
    List Bookmark :=
  (((sortBookmarks db).filter (matchesFilters f)).take (validateLimit limit))

/-- Modelled from the spec: the command `search_bookmarks(query?, tag?, limit)`,
a special case of filtered search with only text and tag filters. -/
def search_bookmarks (db : List Bookmark) (query tag : Option String)
    (limit : Nat) : List Bookmark :=
  search_with_filters db
    { query := query, tag := tag, author := none, dateFrom := none,
      dateTo := none, favoritesOnly := false, hasMedia := none } limit

/-- Modelled from the spec: the command `get_favorites(limit) -> items[]`. -/
def get_favorites (db : List Bookmark) (limit : Nat) : List Bookmark :=
  (((sortBookmarks db).filter (fun b => b.is_favorite)).take (validateLimit limit))

/-- First-match lookup by id, the semantics of `findIndex(b => b.id === id)`
used by the frontend and of the primary-key lookup in storage. -/
def findById : List Bookmark → String → Option Bookmark
  | [], _ => none
  | b :: l, id => if b.id == id then some b else findById l id

/-- Modelled from the spec: the command
`toggle_favorite(id) -> new_boolean_state` — flips the mutable
`is_favorite` flag of the row with the given id and returns the new state;
`none` models the `NotFound` error when the id is absent. -/
def toggle_favorite (db : List Bookmark) (id : String) :
    List Bookmark × Option Bool :=
  match findById db id with
  | none => (db, none)
  | some b =>
    (db.map (fun x => if x.id == id then { x with is_favorite := !x.is_favorite } else x),
     some (!b.is_favorite))

/-! ## Ingestion pipeline, modelled from the spec (claim C1) -/

/-- Modelled from the spec: the Record Model instance produced by a format
parser for one valid row, before persistence (no `id`/`imported_at` yet). -/
structure Record where
  tweet_url : String
  content : String
  note_text : Option String
  tweeted_at : String
  author_handle : String
  author_name : String
  tags : List String
  media : List Media
deriving DecidableEq, Repr

/-- Modelled from the spec: the import summary — "total rows seen, rows
imported, rows skipped as duplicate". -/
structure ImportReport where
  total_rows : Nat
  rows_imported : Nat
  rows_skipped_duplicate : Nat
deriving DecidableEq, Repr

structure ImportOutcome where
  db : List Bookmark
  nextId : Nat
  report : ImportReport
deriving DecidableEq, Repr

/-- Dedup probe: does storage already hold a row with this `tweet_url`? -/
def hasUrl (db : List Bookmark) (u : String) : Bool :=
  db.any (fun b => b.tweet_url == u)

/-- Modelled from the spec: committing one record creates a full Bookmark
row — `id` assigned at first persistence, `imported_at` set once,
`is_favorite` initially false. -/
def recordToBookmark (r : Record) (nextId : Nat) (now : String) : Bookmark :=
  { id := toString nextId
    tweet_url := r.tweet_url
    content := r.content
    note_text := r.note_text
    tweeted_at := r.tweeted_at
    imported_at := now
    author_handle := r.author_handle
    author_name := r.author_name
    author_profile_url := none
    author_profile_image := none
    tags := r.tags
    comments := none
    media := r.media
    is_favorite := false }

/-- Modelled from the spec: the Ingestion Pipeline — "for each valid
record: checks `tweet_url` against existing storage, skips exact
duplicates, and commits new rows"; returns the updated storage together
with the import summary. -/
def importRecords (db : List Bookmark) (nextId : Nat) (now : String) :
    List Record → ImportOutcome
  | [] => ⟨db, nextId, ⟨0, 0, 0⟩⟩
  | r :: rs =>
    if hasUrl db r.tweet_url then
      let o := importRecords db nextId now rs
      ⟨o.db, o.nextId,
        ⟨o.report.total_rows + 1, o.report.rows_imported,
          o.report.rows_skipped_duplicate + 1⟩⟩
    else
      let o := importRecords (db ++ [recordToBookmark r nextId now]) (nextId + 1) now rs
      ⟨o.db, o.nextId,
        ⟨o.report.total_rows + 1, o.report.rows_imported + 1,
          o.report.rows_skipped_duplicate⟩⟩

theorem importRecords_db_extends (now : String) :
    ∀ (rs : List Record) (db : List Bookmark) (n : Nat),
      ∃ ext, (importRecords db n now rs).db = db ++ ext := by
  intro rs
  induction rs with
  | nil => exact fun db n => ⟨[], by simp [importRecords]⟩
  | cons r rs ih =>
    intro db n
    by_cases h : hasUrl db r.tweet_url
    · obtain ⟨ext, hext⟩ := ih db n
      exact ⟨ext, by simp [importRecords, h, hext]⟩
    · obtain ⟨ext, hext⟩ := ih (db ++ [recordToBookmark r n now]) (n + 1)
      refine ⟨recordToBookmark r n now :: ext, ?_⟩
      simp [importRecords, h, hext]

theorem hasUrl_append_left {db : List Bookmark} {u : String} (ext : List Bookmark)
    (h : hasUrl db u = true) : hasUrl (db ++ ext) u = true := by
  simp only [hasUrl, List.any_append, Bool.or_eq_true]
  exact Or.inl h

theorem importRecords_urls_present (now : String) :
    ∀ (rs : List Record) (db : List Bookmark) (n : Nat),
      ∀ r ∈ rs, hasUrl (importRecords db n now rs).db r.tweet_url = true := by
  intro rs
  induction rs with
  | nil => intro db n r hr; cases hr
  | cons r0 rs ih =>
    intro db n r hr
    by_cases h : hasUrl db r0.tweet_url
    · rcases List.mem_cons.mp hr with hr | hr
      · subst hr
        simp only [importRecords, h, if_true]
        obtain ⟨ext, hext⟩ := importRecords_db_extends now rs db n
        rw [hext]
        exact hasUrl_append_left ext h
      · simp only [importRecords, h, if_true]
        exact ih db n r hr
    · rcases List.mem_cons.mp hr with hr | hr
      · subst hr
        simp only [importRecords, h, if_false]
        obtain ⟨ext, hext⟩ :=
          importRecords_db_extends now rs (db ++ [recordToBookmark r n now]) (n + 1)
        rw [hext]
        have hb : hasUrl (db ++ [recordToBookmark r n now]) r.tweet_url = true := by
          simp [hasUrl, recordToBookmark]
        exact hasUrl_append_left ext hb
      · simp only [importRecords, h, if_false]
        exact ih (db ++ [recordToBookmark r0 n now]) (n + 1) r hr

theorem importRecords_all_duplicates (now : String) :
    ∀ (rs : List Record) (db : List Bookmark) (n : Nat),
      (∀ r ∈ rs, hasUrl db r.tweet_url = true) →
      importRecords db n now rs = ⟨db, n, ⟨rs.length, 0, rs.length⟩⟩ := by
  intro rs
  induction rs with
  | nil => intro db n _; rfl
  | cons r rs ih =>
    intro db n hall
    have h0 : hasUrl db r.tweet_url = true := hall r (List.mem_cons_self r rs)
    have hrec := ih db n (fun x hx => hall x (List.mem_cons_of_mem r hx))
    simp [importRecords, h0, hrec]

theorem importRecords_urls_nodup (now : String) :
    ∀ (rs : List Record) (db : List Bookmark) (n : Nat),
      ((db.map (fun b => b.tweet_url)).Nodup) →
      (((importRecords db n now rs).db.map (fun b => b.tweet_url)).Nodup) := by
  intro rs
  induction rs with
  | nil => intro db n h; exact h
  | cons r rs ih =>
    intro db n h
    by_cases hd : hasUrl db r.tweet_url
    · simp only [importRecords, hd, if_true]
      exact ih db n h
    · simp only [importRecords, hd, if_false]
      refine ih (db ++ [recordToBookmark r n now]) (n + 1) ?_
      rw [List.map_append, List.nodup_append]
      refine ⟨h, by simp, ?_⟩
      intro u hu hu2
      simp only [recordToBookmark, List.map_cons, List.map_nil, List.mem_cons,
        List.not_mem_nil, or_false] at hu2
      subst hu2
      apply hd
      simp only [hasUrl, List.any_eq_true]
      simp only [List.mem_map] at hu
      obtain ⟨b, hb, hbu⟩ := hu
      exact ⟨b, hb, by simp [hbu]⟩

/-! ## Frontend state (from `lib/stores/bookmarks.svelte`) -/

structure FeedState where
  offset : Nat
  limit : Nat
  total : Nat
  hasMore : Bool
deriving DecidableEq, Repr

structure AppState where
  bookmarks : List Bookmark
  feed : FeedState
  isLoading : Bool
deriving DecidableEq, Repr

/-- A backend command request issued by the API layer via `invoke`. -/
inductive Request where
  | getBookmarks (offset limit : Nat)
  | searchBookmarksReq (query tag : Option String) (limit : Nat)
  | searchWithFiltersReq (f : Filters) (limit : Nat)
  | getFavoritesReq (limit : Nat)
deriving DecidableEq, Repr

structure LoadOptions where
  offset : Option Nat
  limit : Option Nat
  reset : Bool
deriving DecidableEq, Repr

/-- JavaScript `x || undefined` on an optional string: `null`, `undefined`
and the empty string all collapse to `undefined`. -/
def orUndefined : Option String → Option String
  | none => none
  | some t => if t = "" then none else some t

/-! ## API layer (from `lib/api`), embedded as state transitions.

Each function takes the backend database (read by the modelled commands)
and the current frontend state, and returns the new state together with
the list of backend requests it issued. -/

/-- `loadBookmarks` from `lib/api`: resolves limit/offset from the options
and the feed store, optionally resets the store, issues `get_bookmarks`,
replaces or appends the returned page, and advances the feed metadata by
the number of items received. -/
def loadBookmarks (db : List Bookmark) (opts : LoadOptions) (s : AppState) :
    AppState × List Request :=
  let limit := opts.limit.getD s.feed.limit
  let offset := if opts.reset then 0 else opts.offset.getD s.feed.offset
  let s0 := if opts.reset then
      { s with bookmarks := [], feed := ⟨0, limit, 0, true⟩ } else s
  let resp := get_bookmarks db offset limit
  ({ s0 with
      bookmarks := if offset = 0 then resp.items else s0.bookmarks ++ resp.items
      feed := ⟨offset + resp.items.length, limit, resp.total, resp.has_more⟩
      isLoading := if offset = 0 then false else s0.isLoading },
   [Request.getBookmarks offset limit])

/-- `loadMoreBookmarks` from `lib/api`: guarded by
`if (!feedMeta.value.hasMore || isLoading.value) return;`. -/
def loadMoreBookmarks (db : List Bookmark) (s : AppState) :
    AppState × List Request :=
  if !s.feed.hasMore || s.isLoading then (s, [])
  else loadBookmarks db ⟨some s.feed.offset, some s.feed.limit, false⟩ s

/-- `searchBookmarks` from `lib/api`: issues `search_bookmarks` with a
fixed `limit: 100`, replaces the list, and marks the feed as complete
(`hasMore: false`). -/
def searchBookmarks (db : List Bookmark) (query : String) (tag : Option String)
    (s : AppState) : AppState × List Request :=
  let q := if query = "" then none else some query
  let t := orUndefined tag
  let items := search_bookmarks db q t 100
  ({ s with
      bookmarks := items
      feed := ⟨items.length, 100, items.length, false⟩
      isLoading := false },
   [Request.searchBookmarksReq q t 100])

/-- `loadFavorites` from `lib/api`: issues `get_favorites` with
`limit: 100`, replaces the list, and marks the feed as complete. -/
def loadFavorites (db : List Bookmark) (s : AppState) :
    AppState × List Request :=
  let items := get_favorites db 100
  ({ s with
      bookmarks := items
      feed := ⟨items.length, 100, items.length, false⟩
      isLoading := false },
   [Request.getFavoritesReq 100])

/-- The filters record accepted by `searchWithFilters` in `lib/api`,
before its `|| undefined` / `|| false` normalisation. -/
structure FiltersArg where
  query : Option String
  tag : Option String
  author : Option String
  fromDate : Option String
  toDate : Option String
  favoritesOnly : Option Bool
  hasMedia : Option Bool
deriving DecidableEq, Repr

/-- The argument normalisation performed by `searchWithFilters` in
`lib/api`: empty/absent strings become `undefined`, `favoritesOnly`
defaults to `false`, `hasMedia` is passed through. -/
def normalizeFilters (f : FiltersArg) : Filters :=
  { query := orUndefined f.query
    tag := orUndefined f.tag
    author := orUndefined f.author
    dateFrom := orUndefined f.fromDate
    dateTo := orUndefined f.toDate
    favoritesOnly := f.favoritesOnly.getD false
    hasMedia := f.hasMedia }

/-- `searchWithFilters` from `lib/api`: normalises the filters, issues
`search_with_filters` with `limit: 100`, replaces the list, and marks the
feed as complete. -/
def searchWithFilters (db : List Bookmark) (farg : FiltersArg) (s : AppState) :
    AppState × List Request :=
  let f := normalizeFilters farg
  let items := search_with_filters db f 100
  ({ s with
      bookmarks := items
      feed := ⟨items.length, 100, items.length, false⟩
      isLoading := false },
   [Request.searchWithFiltersReq f 100])

/-- `saveLimit` from the settings page: `feedMeta.reset(limit)` followed by
`loadBookmarks({ limit, reset: true })`.  No clamping happens here; the
chosen limit is passed to the backend as-is. -/
def saveLimit (db : List Bookmark) (limit : Nat) (s : AppState) :
    AppState × List Request :=
  let s1 := { s with feed := ⟨0, limit, 0, true⟩ }
  loadBookmarks db ⟨none, some limit, true⟩ s1

/-- The local list update in `toggleFavorite` from `lib/api`:
`findIndex` on the id, then overwrite that element's `is_favorite` with
the status returned by the backend. -/
def setFavAt : List Bookmark → String → Bool → List Bookmark
  | [], _, _ => []
  | b :: l, id, st =>
    if b.id == id then { b with is_favorite := st } :: l
    else b :: setFavAt l id st

/-- `toggleFavorite` from `lib/api` (Tauri path): invoke the backend
`toggle_favorite`, then mirror the returned state into the loaded list.
`none` models the backend `NotFound` rejection propagating. -/
def toggleFavorite (db : List Bookmark) (id : String) (items : List Bookmark) :
    Option (List Bookmark × List Bookmark × Bool) :=
  match toggle_favorite db id with
  | (db2, some st) => some (db2, setFavAt items id st, st)
  | (_, none) => none

/-! ## Link-preview fetching with memoization (from `lib/api`) -/

abbrev PreviewCache := List (String × Option LinkPreview)

/-- The value the `try/catch` around `invoke('fetch_link_preview')`
produces: the preview on success, `null` on any backend failure. -/
def previewResult (backend : String → Except String LinkPreview)
    (url : String) : Option LinkPreview :=
  match backend url with
  | Except.ok p => some p
  | Except.error _ => none

/-- `fetchLinkPreview` from `lib/api`: consult `previewCache` first; on a
miss, run the backend call under `try/catch` (failures become `null`) and
store the outcome in the cache.  The `Except` result type records whether
the call itself can reject. -/
def fetchLinkPreview (backend : String → Except String LinkPreview)
    (cache : PreviewCache) (url : String) :
    Except String (Option LinkPreview × PreviewCache) :=
  match cache.lookup url with
  | some r => Except.ok (r, cache)
  | none =>
    let r := previewResult backend url
    Except.ok (r, (url, r) :: cache)

/-- A sequence of `fetchLinkPreview` calls threaded through the cache.
Each trace entry records the url, the result handed to the caller, and
whether the backend command was actually invoked for this call. -/
def runPreviewCalls (backend : String → Except String LinkPreview) :
    List String → PreviewCache →
      List (String × Option LinkPreview × Bool) × PreviewCache
  | [], c => ([], c)
  | u :: us, c =>
    match c.lookup u with
    | some r =>
      let rest := runPreviewCalls backend us c
      ((u, r, false) :: rest.1, rest.2)
    | none =>
      let r := previewResult backend u
      let rest := runPreviewCalls backend us ((u, r) :: c)
      ((u, r, true) :: rest.1, rest.2)

/-! ## Link targets in `BookmarkCard.svelte` (claim C9)

The card computes
`Array.from(new Set(content.match(/(https?:\/\/[^\s]+)/g).map(u => u.replace(/[,.!?]+$/, '')).filter(u => u !== tweet_url)))`.
The regex scan is embedded as a left-to-right scanner over the character
list: at each position, a match is an `http://` or `https://` scheme
followed by a maximal non-empty run of non-whitespace characters; the scan
resumes after the match, or one character further on failure. -/

def schemeSplit (cs : List Char) : Option (List Char × List Char) :=
  if cs.take 8 = "https://".data then some (cs.take 8, cs.drop 8)
  else if cs.take 7 = "http://".data then some (cs.take 7, cs.drop 7)
  else none

theorem schemeSplit_some_length {cs : List Char} {p : List Char × List Char}
    (h : schemeSplit cs = some p) : p.2.length < cs.length := by
  unfold schemeSplit at h
  by_cases h8 : cs.take 8 = "https://".data
  · rw [if_pos h8] at h
    have hlen : (cs.take 8).length = 8 := by rw [h8]; rfl
    rw [List.length_take] at hlen
    have h2 : p.2 = cs.drop 8 := by
      cases h
      rfl
    rw [h2, List.length_drop]
    omega
  · rw [if_neg h8] at h
    by_cases h7 : cs.take 7 = "http://".data
    · rw [if_pos h7] at h
      have hlen : (cs.take 7).length = 7 := by rw [h7]; rfl
      rw [List.length_take] at hlen
      have h2 : p.2 = cs.drop 7 := by
        cases h
        rfl
      rw [h2, List.length_drop]
      omega
    · rw [if_neg h7] at h
      cases h

/-- One regex match attempt anchored at the current position: scheme, then
`[^\s]+` (greedy, at least one character).  Returns the matched string and
the remainder of the input after the match. -/
def urlAt (cs : List Char) : Option (List Char × List Char) :=
  match schemeSplit cs with
  | none => none
  | some (sch, rest) =>
    let body := rest.takeWhile (fun c => !c.isWhitespace)
    if body.isEmpty then none
    else some (sch ++ body, rest.drop body.length)

theorem urlAt_some_length {cs : List Char} {p : List Char × List Char}
    (h : urlAt cs = some p) : p.2.length < cs.length := by
  unfold urlAt at h
  cases hs : schemeSplit cs with
  | none => rw [hs] at h; cases h
  | some q =>
    rw [hs] at h
    obtain ⟨sch, rest⟩ := q
    dsimp only at h
    by_cases hb : (rest.takeWhile (fun c => !c.isWhitespace)).isEmpty
    · rw [if_pos hb] at h
      cases h
    · rw [if_neg hb] at h
      have h2 : p.2 = rest.drop (rest.takeWhile (fun c => !c.isWhitespace)).length := by
        cases h
        rfl
      have hr : rest.length < cs.length := schemeSplit_some_length hs
      rw [h2, List.length_drop]
      omega

/-- Scanner worker: structurally recursive on a fuel argument so that the
kernel can evaluate it; `urlAt_some_length` shows one unit of fuel per
input character is enough. -/
def matchUrlsGo : Nat → List Char → List (List Char)
  | 0, _ => []
  | fuel + 1, cs =>
    match urlAt cs with
    | some p => p.1 :: matchUrlsGo fuel p.2
    | none =>
      match cs with
      | [] => []
      | _ :: rest => matchUrlsGo fuel rest

/-- All matches of `/(https?:\/\/[^\s]+)/g` over the content, in order. -/
def matchUrls (cs : List Char) : List (List Char) :=
  matchUrlsGo cs.length cs

/-- `url.replace(/[,.!?]+$/, '')`: strip the trailing run of `, . ! ?`. -/
def isTrailPunct (c : Char) : Bool :=
  c == ',' || c == '.' || c == '!' || c == '?'

def stripTrailing (cs : List Char) : List Char :=
  (cs.reverse.dropWhile isTrailPunct).reverse

/-- `Array.from(new Set(xs))`: deduplicate keeping the first occurrence of
each element, preserving order. -/
def firstDedupAux (seen : List String) : List String → List String
  | [] => []
  | x :: l =>
    if x ∈ seen then firstDedupAux seen l
    else x :: firstDedupAux (x :: seen) l

def firstDedup (l : List String) : List String :=
  firstDedupAux [] l

/-- `linkTargets` from `BookmarkCard.svelte`: match URLs in the content,
strip trailing punctuation, drop the bookmark's own `tweet_url`,
deduplicate. -/
def linkTargets (b : Bookmark) : List String :=
  firstDedup
    (((matchUrls b.content.data).map (fun m => String.mk (stripTrailing m))).filter
      (fun u => u != b.tweet_url))

/-! ## Shared helper lemmas -/

theorem loadMore_noop {db : List Bookmark} {s : AppState}
    (h : s.feed.hasMore = false ∨ s.isLoading = true) :
    loadMoreBookmarks db s = (s, []) := by
  unfold loadMoreBookmarks
  rcases h with h | h
  · rw [h]
    rfl
  · rw [h]
    simp

theorem pages_flatten {α : Type} (limit : Nat) :
    ∀ (n : Nat) (l : List α), l.length ≤ n * limit →
      (((List.range n).map (fun k => (l.drop (k * limit)).take limit)).flatten) = l := by
  intro n
  induction n with
  | zero =>
    intro l hlen
    have h0 : l = [] := by
      cases l with
      | nil => rfl
      | cons a l => simp at hlen
    subst h0
    rfl
  | succ n ih =>
    intro l hlen
    rw [Nat.succ_mul] at hlen
    rw [List.range_succ_eq_map, List.map_cons, List.map_map, List.flatten_cons]
    have hmap : List.map ((fun k => (l.drop (k * limit)).take limit) ∘ Nat.succ)
          (List.range n)
        = List.map (fun k => ((l.drop limit).drop (k * limit)).take limit)
          (List.range n) := by
      apply List.map_congr_left
      intro k _
      simp only [Function.comp_apply]
      rw [List.drop_drop, Nat.succ_mul, Nat.add_comm (k * limit) limit]
    rw [hmap, ih (l.drop limit) (by rw [List.length_drop]; omega)]
    simp only [Nat.zero_mul, List.drop_zero]
    exact List.take_append_drop limit l


theorem findById_map_id_preserving {id : String} {f : Bookmark → Bookmark}
    (hid : ∀ x, (f x).id = x.id) :
    ∀ l : List Bookmark, findById (l.map f) id = (findById l id).map f := by
  intro l
  induction l with
  | nil => rfl
  | cons b l ih =>
    by_cases h : (b.id == id) = true
    · simp only [List.map_cons, findById, hid b, h, if_true]
      rfl
    · simp only [List.map_cons, findById, hid b, h, if_false]
      exact ih

theorem findById_setFavAt {id : String} (st : Bool) :
    ∀ (items : List Bookmark) (bi : Bookmark),
      findById items id = some bi →
      findById (setFavAt items id st) id = some { bi with is_favorite := st } := by
  intro items
  induction items with
  | nil => intro bi h; cases h
  | cons b l ih =>
    intro bi h
    by_cases hb : (b.id == id) = true
    · have h1 : findById (b :: l) id = some b := by simp [findById, hb]
      rw [h1] at h
      cases h
      have h2 : setFavAt (b :: l) id st = { b with is_favorite := st } :: l := by
        simp [setFavAt, hb]
      rw [h2]
      simp [findById, hb]
    · have h1 : findById (b :: l) id = findById l id := by simp [findById, hb]
      rw [h1] at h
      have h2 : setFavAt (b :: l) id st = b :: setFavAt l id st := by
        simp [setFavAt, hb]
      rw [h2]
      have h3 : findById (b :: setFavAt l id st) id = findById (setFavAt l id st) id := by
        simp [findById, hb]
      rw [h3]
      exact ih bi h

theorem findById_sat {id : String} :
    ∀ {l : List Bookmark} {b : Bookmark}, findById l id = some b → b.id = id := by
  intro l
  induction l with
  | nil => intro b h; cases h
  | cons x l ih =>
    intro b h
    by_cases hx : (x.id == id) = true
    · simp only [findById, hx, if_true] at h
      cases h
      exact beq_iff_eq.mp hx
    · simp only [findById, hx, if_false] at h
      exact ih h

theorem preview_lookup_cons (u v : String) (r : Option LinkPreview)
    (c : PreviewCache) :
    List.lookup u ((v, r) :: c) = if u == v then some r else List.lookup u c := by
  cases h : u == v <;> simp [List.lookup, h]

theorem runPreviewCalls_results (backend : String → Except String LinkPreview) :
    ∀ (calls : List String) (c : PreviewCache),
      (∀ u r, List.lookup u c = some r → r = previewResult backend u) →
      ∀ e ∈ (runPreviewCalls backend calls c).1,
        e.2.1 = previewResult backend e.1 := by
  intro calls
  induction calls with
  | nil => intro c _ e he; cases he
  | cons u us ih =>
    intro c hc e he
    cases hl : List.lookup u c with
    | some r =>
      simp only [runPreviewCalls, hl] at he
      rcases List.mem_cons.mp he with he | he
      · subst he
        exact hc u r hl
      · exact ih c hc e he
    | none =>
      simp only [runPreviewCalls, hl] at he
      rcases List.mem_cons.mp he with he | he
      · subst he
        rfl
      · refine ih ((u, previewResult backend u) :: c) ?_ e he
        intro v rv hv
        rw [preview_lookup_cons] at hv
        by_cases hvu : (v == u) = true
        · rw [if_pos hvu] at hv
          cases hv
          rw [beq_iff_eq.mp hvu]
        · rw [if_neg (by simpa using hvu)] at hv
          exact hc v rv hv

theorem runPreviewCalls_no_reinvoke (backend : String → Except String LinkPreview) :
    ∀ (calls : List String) (c : PreviewCache) (u : String),
      (∃ r, List.lookup u c = some r) →
      ((runPreviewCalls backend calls c).1.filter
        (fun e => e.1 == u && e.2.2)).length = 0 := by
  intro calls
  induction calls with
  | nil => intro c u _; rfl
  | cons v vs ih =>
    intro c u hu
    obtain ⟨r, hr⟩ := hu
    cases hl : List.lookup v c with
    | some rv =>
      have hcons : (runPreviewCalls backend (v :: vs) c).1 =
          (v, rv, false) :: (runPreviewCalls backend vs c).1 := by
        simp [runPreviewCalls, hl]
      rw [hcons, List.filter_cons]
      have hcond : ((v, rv, false).1 == u && (v, rv, false).2.2) = false := by
        simp
      rw [hcond]
      simp only [Bool.false_eq_true, if_false]
      exact ih c u ⟨r, hr⟩
    | none =>
      have hvu : (v == u) = false := by
        by_cases h : v = u
        · subst h
          rw [hl] at hr
          cases hr
        · simpa using h
      have hcons : (runPreviewCalls backend (v :: vs) c).1 =
          (v, previewResult backend v, true) ::
            (runPreviewCalls backend vs ((v, previewResult backend v) :: c)).1 := by
        simp [runPreviewCalls, hl]
      rw [hcons, List.filter_cons]
      have hcond : ((v, previewResult backend v, true).1 == u &&
          (v, previewResult backend v, true).2.2) = false := by
        simp only [Bool.and_true]
        exact hvu
      rw [hcond]
      simp only [Bool.false_eq_true, if_false]
      refine ih ((v, previewResult backend v) :: c) u ⟨r, ?_⟩
      rw [preview_lookup_cons]
      have huv : ¬ (u == v) = true := by
        simp only [beq_iff_eq]
        intro h
        subst h
        simp at hvu
      rw [if_neg huv]
      exact hr

theorem runPreviewCalls_invoke_once (backend : String → Except String LinkPreview) :
    ∀ (calls : List String) (c : PreviewCache) (u : String),
      ((runPreviewCalls backend calls c).1.filter
        (fun e => e.1 == u && e.2.2)).length ≤ 1 := by
  intro calls
  induction calls with
  | nil => intro c u; simp [runPreviewCalls]
  | cons v vs ih =>
    intro c u
    cases hl : List.lookup v c with
    | some rv =>
      have hcons : (runPreviewCalls backend (v :: vs) c).1 =
          (v, rv, false) :: (runPreviewCalls backend vs c).1 := by
        simp [runPreviewCalls, hl]
      rw [hcons, List.filter_cons]
      have hcond : ((v, rv, false).1 == u && (v, rv, false).2.2) = false := by
        simp
      rw [hcond]
      simp only [Bool.false_eq_true, if_false]
      exact ih c u
    | none =>
      have hcons : (runPreviewCalls backend (v :: vs) c).1 =
          (v, previewResult backend v, true) ::
            (runPreviewCalls backend vs ((v, previewResult backend v) :: c)).1 := by
        simp [runPreviewCalls, hl]
      rw [hcons, List.filter_cons]
      by_cases hvu : (v == u) = true
      · have hcond : ((v, previewResult backend v, true).1 == u &&
            (v, previewResult backend v, true).2.2) = true := by
          simp only [Bool.and_true]
          exact hvu
        rw [hcond, if_pos rfl, List.length_cons]
        have hv : v = u := beq_iff_eq.mp hvu
        subst hv
        have h0 := runPreviewCalls_no_reinvoke backend vs
          ((v, previewResult backend v) :: c) v
          ⟨previewResult backend v, by rw [preview_lookup_cons]; simp⟩
        omega
      · have hcond : ((v, previewResult backend v, true).1 == u &&
            (v, previewResult backend v, true).2.2) = false := by
          simp only [Bool.and_true]
          simpa using hvu
        rw [hcond]
        simp only [Bool.false_eq_true, if_false]
        exact ih ((v, previewResult backend v) :: c) u

theorem firstDedupAux_nodup :
    ∀ (l seen : List String),
      (firstDedupAux seen l).Nodup ∧ ∀ x ∈ firstDedupAux seen l, x ∉ seen := by
  intro l
  induction l with
  | nil => intro seen; exact ⟨List.nodup_nil, fun x hx => absurd hx (List.not_mem_nil x)⟩
  | cons a l ih =>
    intro seen
    by_cases ha : a ∈ seen
    · simp only [firstDedupAux, if_pos ha]
      exact ih seen
    · simp only [firstDedupAux, if_neg ha]
      obtain ⟨hnd, hns⟩ := ih (a :: seen)
      refine ⟨List.Nodup.cons ?_ hnd, ?_⟩
      · intro hmem
        exact hns a hmem (List.mem_cons_self a seen)
      · intro x hx
        rcases List.mem_cons.mp hx with hx | hx
        · subst hx
          exact ha
        · intro hxs
          exact hns x hx (List.mem_cons_of_mem a hxs)

theorem firstDedupAux_subset :
    ∀ (l seen : List String) (x : String), x ∈ firstDedupAux seen l → x ∈ l := by
  intro l
  induction l with
  | nil => intro seen x hx; cases hx
  | cons a l ih =>
    intro seen x hx
    by_cases ha : a ∈ seen
    · simp only [firstDedupAux, if_pos ha] at hx
      exact List.mem_cons_of_mem a (ih seen x hx)
    · simp only [firstDedupAux, if_neg ha] at hx
      rcases List.mem_cons.mp hx with hx | hx
      · subst hx
        exact List.mem_cons_self x l
      · exact List.mem_cons_of_mem a (ih (a :: seen) x hx)

theorem firstDedup_nodup (l : List String) : (firstDedup l).Nodup :=
  (firstDedupAux_nodup l []).1

theorem firstDedup_subset {l : List String} {x : String}
    (h : x ∈ firstDedup l) : x ∈ l :=
  firstDedupAux_subset l [] x h

/-! ## Concrete fixtures used by the witness theorems -/

def bkW1 : Bookmark :=
  { id := "1", tweet_url := "https://t.co/a",
    content := "see https://a.io, and https://b.io https://a.io!",
    note_text := none, tweeted_at := "2024-05-01", imported_at := "t",
    author_handle := "h1", author_name := "n1", author_profile_url := none,
    author_profile_image := none, tags := ["rust"], comments := none,
    media := [], is_favorite := true }

def bkW2 : Bookmark :=
  { bkW1 with
    id := "2",
    tweet_url := "https://t.co/b",
    tweeted_at := "2024-04-01",
    content := "plain text",
    tags := ["webdev"],
    is_favorite := false }

def dbW : List Bookmark := [bkW2, bkW1]

def sW : AppState :=
  { bookmarks := [],
    feed := { offset := 0, limit := 50, total := 0, hasMore := false },
    isLoading := false }

def sW2 : AppState :=
  { bookmarks := [],
    feed := { offset := 0, limit := 50, total := 0, hasMore := true },
    isLoading := true }

def badBackend : String → Except String LinkPreview :=
  fun _ => Except.error "network unreachable"

def recW1 : Record :=
  { tweet_url := "https://t.co/a", content := "c1", note_text := none,
    tweeted_at := "2024-05-01", author_handle := "h1", author_name := "n1",
    tags := [], media := [] }

def recW2 : Record := { recW1 with tweet_url := "https://t.co/b" }

def fRust : Filters :=
  { query := none, tag := some "rust", author := none, dateFrom := none,
    dateTo := none, favoritesOnly := true, hasMedia := none }

/-! ## The claims -/

/-- C10: `loadMoreBookmarks` is a no-op whenever the feed's `hasMore` flag
is false or a load is already in progress: it issues no backend request
and leaves the bookmark list and the feed pagination metadata unchanged. -/
theorem C10_loadMore_guard_noop (db : List Bookmark) (s : AppState)
    (h : s.feed.hasMore = false ∨ s.isLoading = true) :
    loadMoreBookmarks db s = (s, []) :=
  loadMore_noop h

/-- Witness for C10 at concrete states: one with `hasMore = false`, one
with a load in progress. -/
theorem C10_witness :
    loadMoreBookmarks dbW sW = (sW, []) ∧
    loadMoreBookmarks dbW sW2 = (sW2, []) :=
  ⟨C10_loadMore_guard_noop dbW sW (Or.inl rfl),
   C10_loadMore_guard_noop dbW sW2 (Or.inr rfl)⟩

/-- C4: every search-style call (`searchBookmarks`, `searchWithFilters`,
`loadFavorites`) issues its backend request with the fixed maximum
`limit = 100`, receives at most 100 items, and after the call the feed's
`hasMore` flag is false so `loadMoreBookmarks` fetches no follow-up page. -/
theorem C4_search_single_page (db : List Bookmark) (s : AppState)
    (query : String) (tag : Option String) (farg : FiltersArg) :
    ((searchBookmarks db query tag s).2 =
        [Request.searchBookmarksReq (if query = "" then none else some query)
          (orUndefined tag) 100] ∧
      (searchBookmarks db query tag s).1.feed.hasMore = false ∧
      (searchBookmarks db query tag s).1.bookmarks.length ≤ 100 ∧
      loadMoreBookmarks db (searchBookmarks db query tag s).1 =
        ((searchBookmarks db query tag s).1, [])) ∧
    ((searchWithFilters db farg s).2 =
        [Request.searchWithFiltersReq (normalizeFilters farg) 100] ∧
      (searchWithFilters db farg s).1.feed.hasMore = false ∧
      (searchWithFilters db farg s).1.bookmarks.length ≤ 100 ∧
      loadMoreBookmarks db (searchWithFilters db farg s).1 =
        ((searchWithFilters db farg s).1, [])) ∧
    ((loadFavorites db s).2 = [Request.getFavoritesReq 100] ∧
      (loadFavorites db s).1.feed.hasMore = false ∧
      (loadFavorites db s).1.bookmarks.length ≤ 100 ∧
      loadMoreBookmarks db (loadFavorites db s).1 =
        ((loadFavorites db s).1, [])) := by
  refine ⟨⟨rfl, rfl, ?_, loadMore_noop (Or.inl rfl)⟩,
    ⟨rfl, rfl, ?_, loadMore_noop (Or.inl rfl)⟩,
    ⟨rfl, rfl, ?_, loadMore_noop (Or.inl rfl)⟩⟩
  · exact List.length_take_le _ _
  · exact List.length_take_le _ _
  · exact List.length_take_le _ _

/-- C8: the settings screen's `saveLimit` forwards the user-chosen limit
unchanged, and the command surface bounds every `limit` by `validateLimit`
before the request reaches storage, so no storage request ever exceeds
`MAX_LIMIT` and no `get_bookmarks` response exceeds `MAX_LIMIT` items. -/
theorem C8_limit_validated (db : List Bookmark) (limit : Nat) (s : AppState)
    (offset l2 : Nat) :
    (saveLimit db limit s).2 = [Request.getBookmarks 0 limit] ∧
    (get_bookmarks db offset l2).limit = validateLimit l2 ∧
    validateLimit l2 ≤ MAX_LIMIT ∧
    (get_bookmarks db offset l2).items.length ≤ MAX_LIMIT :=
  ⟨rfl, rfl, min_le_right _ _,
    le_trans (List.length_take_le _ _) (min_le_right _ _)⟩

/-- C6: `fetchLinkPreview` always resolves — for every backend behaviour
the call returns `Except.ok`; when the backend command fails on an
uncached url, the caller receives `null` (and the failure is cached). -/
theorem C6_preview_never_rejects (backend : String → Except String LinkPreview)
    (cache : PreviewCache) (url : String) :
    (∃ v, fetchLinkPreview backend cache url = Except.ok v) ∧
    (List.lookup url cache = none → ∀ e, backend url = Except.error e →
      fetchLinkPreview backend cache url =
        Except.ok (none, (url, none) :: cache)) := by
  constructor
  · unfold fetchLinkPreview
    cases List.lookup url cache
    · exact ⟨_, rfl⟩
    · exact ⟨_, rfl⟩
  · intro h e he
    unfold fetchLinkPreview
    rw [h]
    simp [previewResult, he]

/-- Witness for C6: a failing backend on an empty cache yields `ok` with a
`null` preview. -/
theorem C6_witness :
    (∃ v, fetchLinkPreview badBackend [] "https://x" = Except.ok v) ∧
    fetchLinkPreview badBackend [] "https://x" =
      Except.ok (none, [("https://x", none)]) :=
  ⟨(C6_preview_never_rejects badBackend [] "https://x").1,
   (C6_preview_never_rejects badBackend [] "https://x").2 rfl
     "network unreachable" rfl⟩

/-- C7: across any sequence of `fetchLinkPreview` calls starting from the
empty cache, the backend command is invoked at most once per url, and
every call for a given url returns the same memoized result — the value
determined by the backend's single answer, a cached `null` after a
failure included. -/
theorem C7_preview_memoized (backend : String → Except String LinkPreview)
    (calls : List String) (u : String) :
    ((runPreviewCalls backend calls []).1.filter
        (fun e => e.1 == u && e.2.2)).length ≤ 1 ∧
    ∀ e ∈ (runPreviewCalls backend calls []).1, e.1 = u →
      e.2.1 = previewResult backend u := by
  constructor
  · exact runPreviewCalls_invoke_once backend calls [] u
  · intro e he heq
    have h := runPreviewCalls_results backend calls []
      (fun v r hv => nomatch hv) e he
    rw [heq] at h
    exact h

/-- Witness for C7: two calls for the same url against a failing backend —
at most one invocation, both calls see the cached `null`. -/
theorem C7_witness :
    ((runPreviewCalls badBackend ["https://a", "https://a"] []).1.filter
        (fun e => e.1 == "https://a" && e.2.2)).length ≤ 1 ∧
    ∀ e ∈ (runPreviewCalls badBackend ["https://a", "https://a"] []).1,
      e.1 = "https://a" → e.2.1 = previewResult badBackend "https://a" :=
  C7_preview_memoized badBackend ["https://a", "https://a"] "https://a"

/-- C9: the link-preview targets of a card are exactly URLs matched in the
content with trailing punctuation stripped; the list has no duplicates and
never contains the bookmark's own `tweet_url`. -/
theorem C9_linkTargets_spec (b : Bookmark) :
    (linkTargets b).Nodup ∧
    b.tweet_url ∉ linkTargets b ∧
    ∀ u ∈ linkTargets b, ∃ m ∈ matchUrls b.content.data,
      u = String.mk (stripTrailing m) := by
  refine ⟨firstDedup_nodup _, ?_, ?_⟩
  · intro hmem
    have h1 := firstDedup_subset hmem
    have h2 := List.of_mem_filter h1
    simp at h2
  · intro u hu
    have h1 := firstDedup_subset hu
    have h2 := List.mem_of_mem_filter h1
    obtain ⟨m, hm, hmu⟩ := List.mem_map.mp h2
    exact ⟨m, hm, hmu.symm⟩

/-- Witness for C9 on a concrete card whose content holds a duplicated
URL, trailing punctuation, and the tweet's own URL is excluded. -/
theorem C9_witness :
    (linkTargets bkW1).Nodup ∧
    bkW1.tweet_url ∉ linkTargets bkW1 ∧
    ∃ m ∈ matchUrls bkW1.content.data,
      "https://a.io" = String.mk (stripTrailing m) :=
  ⟨(C9_linkTargets_spec bkW1).1, (C9_linkTargets_spec bkW1).2.1,
   (C9_linkTargets_spec bkW1).2.2 "https://a.io" (by decide)⟩

/-- C3: `search_with_filters` applies every provided filter as a
conjunction — every returned item satisfies the text, tag, author, date
range, favorites and media filters simultaneously. -/
theorem C3_filters_conjunction (db : List Bookmark) (f : Filters)
    (limit : Nat) (b : Bookmark)
    (hb : b ∈ search_with_filters db f limit) :
    (∀ q, f.query = some q → textMatches q b = true) ∧
    (∀ t, f.tag = some t → b.tags.contains t = true) ∧
    (∀ a, f.author = some a → b.author_handle = a) ∧
    (∀ d, f.dateFrom = some d → lexLt b.tweeted_at.data d.data = false) ∧
    (∀ d, f.dateTo = some d → lexLt d.data b.tweeted_at.data = false) ∧
    (f.favoritesOnly = true → b.is_favorite = true) ∧
    (∀ hm, f.hasMedia = some hm → (!b.media.isEmpty) = hm) := by
  have h1 : b ∈ (sortBookmarks db).filter (matchesFilters f) :=
    List.mem_of_mem_take hb
  have h2 : matchesFilters f b = true := List.of_mem_filter h1
  simp only [matchesFilters, Bool.and_eq_true] at h2
  obtain ⟨⟨⟨⟨⟨⟨hq, ht⟩, ha⟩, hdf⟩, hdt⟩, hfav⟩, hmed⟩ := h2
  refine ⟨?_, ?_, ?_, ?_, ?_, ?_, ?_⟩
  · intro q hfq
    rw [hfq] at hq
    exact hq
  · intro t hft
    rw [hft] at ht
    exact ht
  · intro a hfa
    rw [hfa] at ha
    exact (beq_iff_eq.mp ha).symm
  · intro d hfd
    rw [hfd] at hdf
    exact beq_iff_eq.mp hdf
  · intro d hfd
    rw [hfd] at hdt
    exact beq_iff_eq.mp hdt
  · intro hfo
    rw [hfo] at hfav
    simpa using hfav
  · intro hm hfm
    rw [hfm] at hmed
    exact beq_iff_eq.mp hmed

/-- Witness for C3: with `tag = "rust"` and `favoritesOnly = true`, the
returned item has the tag AND is a favorite. -/
theorem C3_witness :
    bkW1.tags.contains "rust" = true ∧ bkW1.is_favorite = true :=
  ⟨(C3_filters_conjunction dbW fRust 100 bkW1 (by decide)).2.1 "rust" rfl,
   (C3_filters_conjunction dbW fRust 100 bkW1 (by decide)).2.2.2.2.2.1 rfl⟩

/-- C1: re-importing the same records is a no-op — the second run imports
zero rows, reports every row as a skipped duplicate, leaves storage
unchanged, and `tweet_url` stays unique across stored rows. -/
theorem C1_import_idempotent (db : List Bookmark) (n : Nat)
    (now1 now2 : String) (rs : List Record)
    (hnd : (db.map (fun b => b.tweet_url)).Nodup) :
    (importRecords (importRecords db n now1 rs).db
        (importRecords db n now1 rs).nextId now2 rs).db
      = (importRecords db n now1 rs).db ∧
    (importRecords (importRecords db n now1 rs).db
        (importRecords db n now1 rs).nextId now2 rs).report.rows_imported = 0 ∧
    (importRecords (importRecords db n now1 rs).db
        (importRecords db n now1 rs).nextId now2 rs).report.rows_skipped_duplicate
      = (importRecords (importRecords db n now1 rs).db
          (importRecords db n now1 rs).nextId now2 rs).report.total_rows ∧
    (importRecords (importRecords db n now1 rs).db
        (importRecords db n now1 rs).nextId now2 rs).report.total_rows
      = rs.length ∧
    ((importRecords db n now1 rs).db.map (fun b => b.tweet_url)).Nodup := by
  have hpres := importRecords_urls_present now1 rs db n
  have hrun2 := importRecords_all_duplicates now2 rs
    (importRecords db n now1 rs).db (importRecords db n now1 rs).nextId hpres
  rw [hrun2]
  exact ⟨rfl, rfl, rfl, rfl, importRecords_urls_nodup now1 rs db n hnd⟩

/-- Witness for C1: importing two fresh records into empty storage and
then importing the same file again. -/
theorem C1_witness :
    (importRecords (importRecords [] 0 "t1" [recW1, recW2]).db
        (importRecords [] 0 "t1" [recW1, recW2]).nextId "t2" [recW1, recW2]).db
      = (importRecords [] 0 "t1" [recW1, recW2]).db ∧
    (importRecords (importRecords [] 0 "t1" [recW1, recW2]).db
        (importRecords [] 0 "t1" [recW1, recW2]).nextId "t2"
        [recW1, recW2]).report.rows_imported = 0 ∧
    (importRecords (importRecords [] 0 "t1" [recW1, recW2]).db
        (importRecords [] 0 "t1" [recW1, recW2]).nextId "t2"
        [recW1, recW2]).report.rows_skipped_duplicate
      = (importRecords (importRecords [] 0 "t1" [recW1, recW2]).db
          (importRecords [] 0 "t1" [recW1, recW2]).nextId "t2"
          [recW1, recW2]).report.total_rows ∧
    (importRecords (importRecords [] 0 "t1" [recW1, recW2]).db
        (importRecords [] 0 "t1" [recW1, recW2]).nextId "t2"
        [recW1, recW2]).report.total_rows = [recW1, recW2].length ∧
    ((importRecords [] 0 "t1" [recW1, recW2]).db.map
        (fun b => b.tweet_url)).Nodup :=
  C1_import_idempotent [] 0 "t1" "t2" [recW1, recW2] (by decide)

/-- C2: toggling a favorite twice returns the bookmark to its original
state (storage is restored exactly), and after each single toggle the
loaded list shows precisely the boolean state the call returned for that
id. -/
theorem C2_toggle_roundtrip (db items : List Bookmark) (id : String)
    (b0 bi : Bookmark)
    (hdb : findById db id = some b0)
    (hit : findById items id = some bi) :
    ∃ db1 items1,
      toggleFavorite db id items = some (db1, items1, !b0.is_favorite) ∧
      findById items1 id = some { bi with is_favorite := !b0.is_favorite } ∧
      ∃ db2 items2,
        toggleFavorite db1 id items1 = some (db2, items2, b0.is_favorite) ∧
        db2 = db ∧
        findById items2 id = some { bi with is_favorite := b0.is_favorite } := by
  have hb0id : (b0.id == id) = true := beq_iff_eq.mpr (findById_sat hdb)
  have hfid : ∀ x : Bookmark,
      ((if x.id == id then { x with is_favorite := !x.is_favorite } else x) :
        Bookmark).id = x.id := by
    intro x
    by_cases h : (x.id == id) = true <;> simp [h]
  have ht1 : toggle_favorite db id =
      (db.map (fun x => if x.id == id then
        { x with is_favorite := !x.is_favorite } else x),
       some (!b0.is_favorite)) := by
    unfold toggle_favorite
    rw [hdb]
  have htf1 : toggleFavorite db id items =
      some (db.map (fun x => if x.id == id then
          { x with is_favorite := !x.is_favorite } else x),
        setFavAt items id (!b0.is_favorite), !b0.is_favorite) := by
    unfold toggleFavorite
    rw [ht1]
  have hfind1 : findById (db.map (fun x => if x.id == id then
      { x with is_favorite := !x.is_favorite } else x)) id
      = some { b0 with is_favorite := !b0.is_favorite } := by
    rw [findById_map_id_preserving hfid, hdb]
    simp [hb0id]
    intro h
    exact absurd (findById_sat hdb) h
  have ht2 : toggle_favorite (db.map (fun x => if x.id == id then
      { x with is_favorite := !x.is_favorite } else x)) id =
      ((db.map (fun x => if x.id == id then
          { x with is_favorite := !x.is_favorite } else x)).map
        (fun x => if x.id == id then
          { x with is_favorite := !x.is_favorite } else x),
       some b0.is_favorite) := by
    unfold toggle_favorite
    rw [hfind1]
    simp
  have htf2 : toggleFavorite (db.map (fun x => if x.id == id then
      { x with is_favorite := !x.is_favorite } else x)) id
      (setFavAt items id (!b0.is_favorite)) =
      some ((db.map (fun x => if x.id == id then
          { x with is_favorite := !x.is_favorite } else x)).map
        (fun x => if x.id == id then
          { x with is_favorite := !x.is_favorite } else x),
        setFavAt (setFavAt items id (!b0.is_favorite)) id b0.is_favorite,
        b0.is_favorite) := by
    unfold toggleFavorite
    rw [ht2]
  have hdd : (db.map (fun x => if x.id == id then
      { x with is_favorite := !x.is_favorite } else x)).map
      (fun x => if x.id == id then
        { x with is_favorite := !x.is_favorite } else x) = db := by
    rw [List.map_map]
    have hpt : ∀ x ∈ db, ((fun x => if x.id == id then
        { x with is_favorite := !x.is_favorite } else x) ∘
        (fun x => if x.id == id then
          { x with is_favorite := !x.is_favorite } else x)) x = x := by
      intro x _
      by_cases h : x.id = id
      · cases x
        simp_all
      · simp [Function.comp_apply, h]
    rw [List.map_congr_left hpt]
    simp
  refine ⟨_, _, htf1, findById_setFavAt (!b0.is_favorite) items bi hit,
    _, _, htf2, hdd, ?_⟩
  exact findById_setFavAt b0.is_favorite (setFavAt items id (!b0.is_favorite))
    { bi with is_favorite := !b0.is_favorite }
    (findById_setFavAt (!b0.is_favorite) items bi hit)

/-- Witness for C2 on concrete storage and a concrete loaded list. -/
theorem C2_witness :
    ∃ db1 items1,
      toggleFavorite dbW "1" dbW = some (db1, items1, !bkW1.is_favorite) ∧
      findById items1 "1" = some { bkW1 with is_favorite := !bkW1.is_favorite } ∧
      ∃ db2 items2,
        toggleFavorite db1 "1" items1 = some (db2, items2, bkW1.is_favorite) ∧
        db2 = dbW ∧
        findById items2 "1" = some { bkW1 with is_favorite := bkW1.is_favorite } :=
  C2_toggle_roundtrip dbW dbW "1" bkW1 bkW1 (by decide) (by decide)

/-- C5: with a fixed dataset, concatenating the pages of
`list(offset, limit)` over increasing offsets reproduces every stored
bookmark exactly once (the page sequence flattens to a permutation of the
dataset), in `tweeted_at`-descending order with ties broken by `id`
ascending; and the frontend `loadBookmarks` advances the feed offset by
exactly the number of items received, appending each non-initial page once. -/
theorem C5_pagination_coverage (db : List Bookmark) (limit n : Nat)
    (opts : LoadOptions) (s : AppState)
    (hl : 0 < limit) (hn : db.length ≤ n * limit) :
    ((List.range n).map (fun k => listPage db (k * limit) limit)).flatten
        = sortBookmarks db ∧
    List.Perm (sortBookmarks db) db ∧
    List.Sorted bookOrder (sortBookmarks db) ∧
    ((loadBookmarks db opts s).1.feed.offset =
        (if opts.reset then 0 else opts.offset.getD s.feed.offset) +
          (get_bookmarks db
            (if opts.reset then 0 else opts.offset.getD s.feed.offset)
            (opts.limit.getD s.feed.limit)).items.length) ∧
    ((if opts.reset then 0 else opts.offset.getD s.feed.offset) ≠ 0 →
      (loadBookmarks db opts s).1.bookmarks =
        s.bookmarks ++ (get_bookmarks db
          (if opts.reset then 0 else opts.offset.getD s.feed.offset)
          (opts.limit.getD s.feed.limit)).items) := by
  refine ⟨?_, sortBookmarks_perm db, sortBookmarks_sorted db, ?_, ?_⟩
  · exact pages_flatten limit n (sortBookmarks db)
      (by rw [sortBookmarks_length]; exact hn)
  · rfl
  · intro hoff
    by_cases hr : opts.reset = true
    · exfalso
      apply hoff
      simp [hr]
    · have hr2 : opts.reset = false := by
        cases hof : opts.reset
        · rfl
        · exact absurd hof hr
      rw [hr2] at hoff
      simp only [if_neg (by simp : ¬ (false = true))] at hoff
      unfold loadBookmarks
      simp only [hr2, Bool.false_eq_true, if_false, hoff]

/-- Witness for C5: a two-bookmark dataset paged with `limit = 2`,
`n = 1`, and a non-reset load. -/
theorem C5_witness :
    ((List.range 1).map (fun k => listPage dbW (k * 2) 2)).flatten
        = sortBookmarks dbW ∧
    List.Perm (sortBookmarks dbW) dbW ∧
    List.Sorted bookOrder (sortBookmarks dbW) ∧
    ((loadBookmarks dbW ⟨none, none, false⟩ sW).1.feed.offset =
        (if (false : Bool) then 0 else (none : Option Nat).getD sW.feed.offset) +
          (get_bookmarks dbW
            (if (false : Bool) then 0 else (none : Option Nat).getD sW.feed.offset)
            ((none : Option Nat).getD sW.feed.limit)).items.length) ∧
    ((if (false : Bool) then 0 else (none : Option Nat).getD sW.feed.offset) ≠ 0 →
      (loadBookmarks dbW ⟨none, none, false⟩ sW).1.bookmarks =
        sW.bookmarks ++ (get_bookmarks dbW
          (if (false : Bool) then 0 else (none : Option Nat).getD sW.feed.offset)
          ((none : Option Nat).getD sW.feed.limit)).items) :=
  C5_pagination_coverage dbW 2 1 ⟨none, none, false⟩ sW (by decide) (by decide)
